import Mathlib

/-
Verification of the sync script (src/sync.py) against its specification.

The script is shallowly embedded: byte/character strings are modelled as
`List Char` (alias `Str`), the Python dict used for the fingerprint store as
an insertion-ordered association list with Python's update semantics, file
contents and command outputs as oracle functions supplied through an
environment record, and the observable actions of a run (git invocations,
log lines, the final store write) as an explicit event trace.

Path operations follow the POSIX rules of os.path (join/dirname/basename);
text-mode file reading follows Python's universal-newlines line iteration.
-/

set_option maxRecDepth 10000

deriving instance DecidableEq for Except

abbrev Str := List Char

-- ---------------------------------------------------------------------------
-- Python string primitives used by the script
-- ---------------------------------------------------------------------------

/-- Characters stripped by Python's `str.strip()` (ASCII whitespace). -/
def isPyWs (c : Char) : Bool :=
  c == ' ' || c == '\t' || c == '\n' || c == '\r' || c == '\x0b' || c == '\x0c'

/-- Python `str.strip()`: remove leading and trailing whitespace. -/
def pyStrip (s : Str) : Str :=
  ((s.dropWhile isPyWs).reverse.dropWhile isPyWs).reverse

/-- Python `str.split("||")`: split on each non-overlapping occurrence of the
two-character delimiter `||`, scanning left to right. -/
def splitBars : Str → List Str
  | [] => [[]]
  | [c] => [[c]]
  | c :: d :: rest =>
    if c = '|' ∧ d = '|' then
      [] :: splitBars rest
    else
      match splitBars (d :: rest) with
      | [] => [[c]]
      | g :: gs => (c :: g) :: gs

/-- Split a string at each newline character (auxiliary for line iteration). -/
def splitNl : Str → List Str
  | [] => [[]]
  | c :: rest =>
    if c = '\n' then
      [] :: splitNl rest
    else
      match splitNl rest with
      | [] => [[c]]
      | g :: gs => (c :: g) :: gs

/-- Python text-mode universal newlines: `\r\n` and lone `\r` both read as `\n`. -/
def pyUnivNewlines : Str → Str
  | [] => []
  | [c] => [if c = '\r' then '\n' else c]
  | c :: d :: rest =>
    if c = '\r' then
      if d = '\n' then '\n' :: pyUnivNewlines rest
      else '\n' :: pyUnivNewlines (d :: rest)
    else c :: pyUnivNewlines (d :: rest)

/-- Python `for line in f`: the lines of a text file, in order.  Each yielded
line keeps its trailing newline in Python; since every consumer strips the
line first, lines are modelled without the trailing `\n`.  A trailing final
empty fragment is not a line. -/
def pyFileLines (s : Str) : List Str :=
  if pyUnivNewlines s = [] then []
  else if (pyUnivNewlines s).getLast? = some '\n' then (splitNl (pyUnivNewlines s)).dropLast
  else splitNl (pyUnivNewlines s)

/-- Does the string contain two adjacent `|` characters (the store delimiter)? -/
def hasDD : Str → Bool
  | [] => false
  | [_] => false
  | c :: d :: rest => (c == '|' && d == '|') || hasDD (d :: rest)

-- ---------------------------------------------------------------------------
-- The Python dict (insertion-ordered, update-in-place) for the store mapping
-- ---------------------------------------------------------------------------

/-- Python dict assignment m[k] = v: overwrite the existing entry in place, or
append a new entry at the end. -/
def dictInsert : List (Str × Str) → Str → Str → List (Str × Str)
  | [], k, v => [(k, v)]
  | (k', v') :: rest, k, v =>
    if k' = k then (k, v) :: rest else (k', v') :: dictInsert rest k v

/-- Python dict lookup m.get(k). -/
def dictGet : List (Str × Str) → Str → Option Str
  | [], _ => none
  | (k', v') :: rest, k => if k' = k then some v' else dictGet rest k

/-- Python dict membership k in m. -/
def dictMem (m : List (Str × Str)) (k : Str) : Bool :=
  (dictGet m k).isSome

-- ---------------------------------------------------------------------------
-- Fingerprint store: load_hashes / save_hashes
-- ---------------------------------------------------------------------------

/-- The one error the store loader can raise: a line of the store file does
not split into exactly two fields (the ValueError from unpacking
`path, h = line.strip().split("||")`; the spec calls it CorruptStoreError). -/
inductive LoadErr where
  | corruptStore
deriving DecidableEq

/-- Parsing of a single line: path, h = line.strip().split("||"). -/
def parseLine (line : Str) : Except LoadErr (Str × Str) :=
  match splitBars (pyStrip line) with
  | [p, h] => Except.ok (p, h)
  | _ => Except.error LoadErr.corruptStore

/-- The loop body of load_hashes over the lines of the store file. -/
def loadLines : List Str → List (Str × Str) → Except LoadErr (List (Str × Str))
  | [], acc => Except.ok acc
  | line :: rest, acc =>
    match parseLine line with
    | Except.ok pr => loadLines rest (dictInsert acc pr.1 pr.2)
    | Except.error e => Except.error e

/-- load_hashes: empty mapping if the store file does not exist (`none`),
otherwise parse every line `path||digest`. -/
def load_hashes : Option Str → Except LoadErr (List (Str × Str))
  | none => Except.ok []
  | some content => loadLines (pyFileLines content) []

/-- One written record: `f"{path}||{h}"` (without the newline). -/
def storeLine (pr : Str × Str) : Str :=
  pr.1 ++ '|' :: '|' :: pr.2

/-- save_hashes: write one `path||digest` line per entry, in mapping order. -/
def save_hashes : List (Str × Str) → Str
  | [] => []
  | pr :: rest => storeLine pr ++ '\n' :: save_hashes rest

-- ---------------------------------------------------------------------------
-- POSIX path operations (os.path.join / dirname / basename)
-- ---------------------------------------------------------------------------

def pyJoin (a b : Str) : Str :=
  if b.head? = some '/' then b
  else if a = [] ∨ a.getLast? = some '/' then a ++ b
  else a ++ '/' :: b

def pyBasename (p : Str) : Str :=
  (p.reverse.takeWhile (fun c => c != '/')).reverse

def pyDirname (p : Str) : Str :=
  let tailLen := (p.reverse.takeWhile (fun c => c != '/')).length
  let head := p.take (p.length - tailLen)
  if head = [] then []
  else if head.all (fun c => c == '/') then head
  else (head.reverse.dropWhile (fun c => c == '/')).reverse

-- ---------------------------------------------------------------------------
-- Script configuration constants
-- ---------------------------------------------------------------------------

def LOCAL_REPO : Str := "Конфиги".toList

def BRANCH : Str := "master".toList

-- Source names: LOCAL_PREFIX / REMOTE_PREFIX (the spec's local/remote markers).
def LOCAL_MARKER : Str := "LOCAL_".toList

def REMOTE_MARKER : Str := "REMOTE_".toList

def HTTP_PROXY : Str := []

def HTTPS_PROXY : Str := []

/-- The commit message f-string: Автообновление [computer_name current_time]. -/
def COMMIT_MESSAGE (computer_name current_time : Str) : Str :=
  "Автообновление [".toList ++ computer_name ++ ' ' :: current_time ++ [']']

def fullPathOf (rel_path : Str) : Str :=
  pyJoin LOCAL_REPO rel_path

-- ---------------------------------------------------------------------------
-- Conflict preserver: save_conflict_versions
-- ---------------------------------------------------------------------------

/-- Overwrite (or create) the file at path `p` with `content`. -/
def fsWrite (fs : Str → Option Str) (p : Str) (content : Str) : Str → Option Str :=
  fun q => if q = p then some content else fs q

/-- Target of the preserved local version of a conflicted path. -/
def localVersionPath (file_path : Str) : Str :=
  pyJoin (pyDirname (pyJoin LOCAL_REPO file_path)) (LOCAL_MARKER ++ pyBasename file_path)

/-- Target of the preserved remote version of a conflicted path. -/
def remoteVersionPath (file_path : Str) : Str :=
  pyJoin (pyDirname (pyJoin LOCAL_REPO file_path)) (REMOTE_MARKER ++ pyBasename file_path)

/-- Loop body of save_conflict_versions for one conflicted path: write the
stdout of `git show HEAD:<path>` to the LOCAL_-prefixed sibling, then the
stdout of `git show origin/<branch>:<path>` to the REMOTE_-prefixed sibling.
`gitShow` is the oracle for what `git show <revspec>` prints. -/
def preserveStep (gitShow : Str → Str) (acc : Str → Option Str) (file_path : Str) :
    Str → Option Str :=
  fsWrite
    (fsWrite acc (localVersionPath file_path)
      (gitShow ("HEAD:".toList ++ file_path)))
    (remoteVersionPath file_path)
    (gitShow ("origin/".toList ++ BRANCH ++ ':' :: file_path))

/-- save_conflict_versions: preserve both sides of every conflicted path. -/
def save_conflict_versions (gitShow : Str → Str) (conflicted_files : List Str)
    (fs : Str → Option Str) : Str → Option Str :=
  conflicted_files.foldl (preserveStep gitShow) fs

-- ---------------------------------------------------------------------------
-- Sync orchestrator: events, environment, run result
-- ---------------------------------------------------------------------------

/-- One constructor per log() call site of the script. -/
inductive LogMsg where
  | pulledLatest
  | pullConflictDetected
  | pullError
  | noInternetPull
  | fileChanged (p : Str)
  | addError (p : Str)
  | committedLocally
  /-- The `log(f"Ошибка при commit: ...")` site.  It sits in an
  `except RuntimeError` arm, but the commit is run with check=False, so
  no run can emit it. -/
  | commitError
  | rebaseConflictDetected
  | rebaseError
  | pushedOk
  | pushFailed
  | noInternetPush
  | noNewChanges
deriving DecidableEq

/-- Observable actions of a run, in program order. -/
inductive Event where
  | gitConfigProxy
  | gitPull
  | listConflicted
  | preserveVersions (paths : List Str)
  | abortMerge
  | gitAdd (p : Str)
  | gitCommit (msg : Str)
  | gitRebasePull
  | gitPush
  | abortRebase
  | saveStore (m : List (Str × Str))
  | logE (m : LogMsg)
deriving DecidableEq

/-- The oracles a run consults: what the filesystem and the git backend
answer at each step. -/
structure RunEnv where
  computerName : Str
  currentTime : Str
  internetPull : Bool
  pullExitZero : Bool
  pullConflictMarker : Bool
  pullConflictPaths : List Str
  files : List Str
  isfile : Str → Bool
  digest : Str → Str
  addExitZero : Str → Bool
  commitExitZero : Bool
  internetPush : Bool
  rebaseExitZero : Bool
  rebaseConflictMarker : Bool
  rebaseConflictPaths : List Str
  pushExitZero : Bool

structure RunResult where
  events : List Event
  changed : Bool
  newHashes : List (Str × Str)
  store : Option Str
deriving DecidableEq

/-- The dirty test of the scan loop:
`rel_path not in previous_hashes or previous_hashes[rel_path] != file_hash`. -/
def isDirty (previous_hashes : List (Str × Str)) (env : RunEnv) (rel_path : Str) : Bool :=
  !(dictMem previous_hashes rel_path)
    || !(dictGet previous_hashes rel_path == some (env.digest (fullPathOf rel_path)))

structure ScanState where
  events : List Event
  hashes : List (Str × Str)
  changed : Bool
deriving DecidableEq

/-- One iteration of the scan-and-stage loop over `all_files`. -/
def scanStep (env : RunEnv) (previous_hashes : List (Str × Str))
    (st : ScanState) (rel_path : Str) : ScanState :=
  let full_path := fullPathOf rel_path
  if env.isfile full_path then
    let file_hash := env.digest full_path
    if isDirty previous_hashes env rel_path then
      if env.addExitZero rel_path then
        { events := st.events ++ [Event.gitAdd rel_path, Event.logE (LogMsg.fileChanged rel_path)],
          hashes := dictInsert st.hashes rel_path file_hash,
          changed := true }
      else
        { st with events := st.events ++ [Event.gitAdd rel_path, Event.logE (LogMsg.addError rel_path)] }
    else st
  else st

/-- Proxy configuration: git config http.proxy / https.proxy run only for non-empty settings. -/
def proxyEvents : List Event :=
  (if HTTP_PROXY = [] then [] else [Event.gitConfigProxy])
    ++ (if HTTPS_PROXY = [] then [] else [Event.gitConfigProxy])

/-- The plain-pull phase of sync_repo. -/
def pullPhase (env : RunEnv) : List Event :=
  if env.internetPull then
    Event.gitPull ::
      (if env.pullExitZero then
        [Event.logE LogMsg.pulledLatest]
      else if env.pullConflictMarker then
        [Event.logE LogMsg.pullConflictDetected, Event.listConflicted,
         Event.preserveVersions env.pullConflictPaths, Event.abortMerge]
      else
        [Event.logE LogMsg.pullError])
  else [Event.logE LogMsg.noInternetPull]

/-- The pull --rebase + push phase of sync_repo (reached only when changed). -/
def publishPhase (env : RunEnv) : List Event :=
  if env.internetPush then
    Event.gitRebasePull ::
      (if env.rebaseExitZero then
        (if env.pushExitZero then [Event.gitPush, Event.logE LogMsg.pushedOk]
         else [Event.gitPush, Event.logE LogMsg.pushFailed])
      else if env.rebaseConflictMarker then
        [Event.logE LogMsg.rebaseConflictDetected, Event.listConflicted,
         Event.preserveVersions env.rebaseConflictPaths, Event.abortRebase]
      else
        [Event.logE LogMsg.rebaseError])
  else [Event.logE LogMsg.noInternetPush]

/-- The scan-and-stage loop over `get_all_files(LOCAL_REPO)`, starting from
`new_hashes = previous_hashes.copy()` and `changed = False`. -/
def scanResult (env : RunEnv) (previous_hashes : List (Str × Str)) : ScanState :=
  env.files.foldl (scanStep env previous_hashes)
    { events := [], hashes := previous_hashes, changed := false }

/-- sync_repo: configure proxies, load the store (fatal on corruption),
pull, scan and stage, and if anything was staged commit, publish, and
persist the updated mapping. -/
def sync_repo (env : RunEnv) (storeFile : Option Str) : Except LoadErr RunResult :=
  match load_hashes storeFile with
  | Except.error e => Except.error e
  | Except.ok previous_hashes =>
    let scan := scanResult env previous_hashes
    let preEvents := proxyEvents ++ pullPhase env ++ scan.events
    if scan.changed then
      Except.ok
        { events := preEvents
            ++ [Event.gitCommit (COMMIT_MESSAGE env.computerName env.currentTime),
                Event.logE LogMsg.committedLocally]
            ++ publishPhase env ++ [Event.saveStore scan.hashes],
          changed := true,
          newHashes := scan.hashes,
          store := some (save_hashes scan.hashes) }
    else
      Except.ok
        { events := preEvents ++ [Event.logE LogMsg.noNewChanges],
          changed := false,
          newHashes := scan.hashes,
          store := storeFile }

/-- The events one scan iteration appends for a given path. -/
def perFileEvents (env : RunEnv) (previous_hashes : List (Str × Str)) (rel_path : Str) :
    List Event :=
  if env.isfile (fullPathOf rel_path) then
    if isDirty previous_hashes env rel_path then
      if env.addExitZero rel_path then
        [Event.gitAdd rel_path, Event.logE (LogMsg.fileChanged rel_path)]
      else
        [Event.gitAdd rel_path, Event.logE (LogMsg.addError rel_path)]
    else []
  else []

/-- Did the scan loop stage this path successfully? -/
def stagedOK (env : RunEnv) (previous_hashes : List (Str × Str)) (rel_path : Str) : Bool :=
  env.isfile (fullPathOf rel_path) && isDirty previous_hashes env rel_path
    && env.addExitZero rel_path

-- ---------------------------------------------------------------------------
-- Dict lemmas
-- ---------------------------------------------------------------------------

theorem dictGet_insert_self (m : List (Str × Str)) (k v : Str) :
    dictGet (dictInsert m k v) k = some v := by
  induction m with
  | nil => simp [dictInsert, dictGet]
  | cons e rest ih =>
    by_cases h : e.1 = k
    · simp [dictInsert, dictGet, h]
    · simp [dictInsert, dictGet, h, ih]

theorem dictGet_insert_ne (m : List (Str × Str)) (k v k' : Str) (h : k' ≠ k) :
    dictGet (dictInsert m k v) k' = dictGet m k' := by
  induction m with
  | nil => simp [dictInsert, dictGet, Ne.symm h]
  | cons e rest ih =>
    by_cases he : e.1 = k
    · subst he
      simp [dictInsert, dictGet, Ne.symm h]
    · by_cases he' : e.1 = k'
      · simp [dictInsert, dictGet, he, he', h]
      · simp [dictInsert, dictGet, he, he', ih]

theorem dictMem_insert (m : List (Str × Str)) (k v k' : Str) (h : dictMem m k' = true) :
    dictMem (dictInsert m k v) k' = true := by
  by_cases hk : k' = k
  · subst hk; simp [dictMem, dictGet_insert_self]
  · simpa [dictMem, dictGet_insert_ne m k v k' hk] using h

theorem dictGet_append (a b : List (Str × Str)) (k : Str) :
    dictGet (a ++ b) k = match dictGet a k with
      | some v => some v
      | none => dictGet b k := by
  induction a with
  | nil => simp [dictGet]
  | cons e rest ih =>
    by_cases h : e.1 = k
    · simp [dictGet, h]
    · simp [dictGet, h, ih]

theorem dictInsert_of_not_mem (m : List (Str × Str)) (k v : Str)
    (h : dictMem m k = false) : dictInsert m k v = m ++ [(k, v)] := by
  induction m with
  | nil => simp [dictInsert]
  | cons e rest ih =>
    simp only [dictMem, dictGet] at h
    by_cases he : e.1 = k
    · simp [he] at h
    · simp only [dictInsert, he, if_false, List.cons_append, List.cons.injEq, true_and]
      exact ih (by simpa [dictMem, he] using h)

-- ---------------------------------------------------------------------------
-- Scan loop characterization
-- ---------------------------------------------------------------------------

theorem scanStep_events (env : RunEnv) (prev : List (Str × Str)) (st : ScanState)
    (rel : Str) :
    (scanStep env prev st rel).events = st.events ++ perFileEvents env prev rel := by
  unfold scanStep perFileEvents
  by_cases hf : env.isfile (fullPathOf rel)
  · by_cases hd : isDirty prev env rel
    · by_cases ha : env.addExitZero rel <;> simp [hf, hd, ha]
    · simp [hf, hd]
  · simp [hf]

theorem scanStep_hashes (env : RunEnv) (prev : List (Str × Str)) (st : ScanState)
    (rel : Str) :
    (scanStep env prev st rel).hashes =
      if stagedOK env prev rel then dictInsert st.hashes rel (env.digest (fullPathOf rel))
      else st.hashes := by
  unfold scanStep stagedOK
  by_cases hf : env.isfile (fullPathOf rel)
  · by_cases hd : isDirty prev env rel
    · by_cases ha : env.addExitZero rel <;> simp [hf, hd, ha]
    · simp [hf, hd]
  · simp [hf]

theorem scanStep_changed (env : RunEnv) (prev : List (Str × Str)) (st : ScanState)
    (rel : Str) :
    (scanStep env prev st rel).changed = (st.changed || stagedOK env prev rel) := by
  unfold scanStep stagedOK
  by_cases hf : env.isfile (fullPathOf rel)
  · by_cases hd : isDirty prev env rel
    · by_cases ha : env.addExitZero rel <;> simp [hf, hd, ha]
    · simp [hf, hd]
  · simp [hf]

theorem scan_foldl_events (env : RunEnv) (prev : List (Str × Str)) :
    ∀ (l : List Str) (st : ScanState),
      (l.foldl (scanStep env prev) st).events =
        st.events ++ (l.map (perFileEvents env prev)).flatten := by
  intro l
  induction l with
  | nil => intro st; simp
  | cons a t ih =>
    intro st
    rw [List.foldl_cons, ih, scanStep_events]
    simp

theorem scan_foldl_changed (env : RunEnv) (prev : List (Str × Str)) :
    ∀ (l : List Str) (st : ScanState),
      (l.foldl (scanStep env prev) st).changed =
        (st.changed || l.any (stagedOK env prev)) := by
  intro l
  induction l with
  | nil => intro st; simp
  | cons a t ih =>
    intro st
    rw [List.foldl_cons, ih, scanStep_changed]
    simp [Bool.or_assoc]

theorem scan_foldl_get (env : RunEnv) (prev : List (Str × Str)) (k : Str) :
    ∀ (l : List Str) (st : ScanState),
      dictGet (l.foldl (scanStep env prev) st).hashes k =
        if k ∈ l ∧ stagedOK env prev k = true then some (env.digest (fullPathOf k))
        else dictGet st.hashes k := by
  intro l
  induction l with
  | nil => intro st; simp
  | cons a t ih =>
    intro st
    rw [List.foldl_cons, ih]
    by_cases hkt : k ∈ t ∧ stagedOK env prev k = true
    · simp [hkt, List.mem_cons, hkt.1, hkt.2]
    · rw [if_neg hkt, scanStep_hashes]
      by_cases hka : k = a
      · subst hka
        by_cases hs : stagedOK env prev k = true
        · simp [hs, dictGet_insert_self]
        · simp only [Bool.not_eq_true] at hs
          simp [hs]
      · by_cases hs : stagedOK env prev a = true
        · rw [if_pos hs, dictGet_insert_ne _ _ _ _ hka]
          have : ¬(k ∈ a :: t ∧ stagedOK env prev k = true) := by
            intro ⟨hm, hstage⟩
            rcases List.mem_cons.mp hm with h | h
            · exact hka h
            · exact hkt ⟨h, hstage⟩
          rw [if_neg this]
        · simp only [Bool.not_eq_true] at hs
          rw [if_neg (by simp [hs])]
          have : ¬(k ∈ a :: t ∧ stagedOK env prev k = true) := by
            intro ⟨hm, hstage⟩
            rcases List.mem_cons.mp hm with h | h
            · subst h; simp [hstage] at hs
            · exact hkt ⟨h, hstage⟩
          rw [if_neg this]

theorem scanResult_events (env : RunEnv) (prev : List (Str × Str)) :
    (scanResult env prev).events = (env.files.map (perFileEvents env prev)).flatten := by
  unfold scanResult
  rw [scan_foldl_events]
  simp

theorem scanResult_changed (env : RunEnv) (prev : List (Str × Str)) :
    (scanResult env prev).changed = env.files.any (stagedOK env prev) := by
  unfold scanResult
  rw [scan_foldl_changed]
  simp

theorem scanResult_get (env : RunEnv) (prev : List (Str × Str)) (k : Str) :
    dictGet (scanResult env prev).hashes k =
      if k ∈ env.files ∧ stagedOK env prev k = true then some (env.digest (fullPathOf k))
      else dictGet prev k := by
  unfold scanResult
  rw [scan_foldl_get]

-- ---------------------------------------------------------------------------
-- Shapes of the run phases
-- ---------------------------------------------------------------------------

theorem mem_perFileEvents (env : RunEnv) (prev : List (Str × Str)) (rel : Str)
    (e : Event) (h : e ∈ perFileEvents env prev rel) :
    e = Event.gitAdd rel ∨ e = Event.logE (LogMsg.fileChanged rel) ∨
      e = Event.logE (LogMsg.addError rel) := by
  unfold perFileEvents at h
  by_cases hf : env.isfile (fullPathOf rel)
  · by_cases hd : isDirty prev env rel
    · by_cases ha : env.addExitZero rel
      · simp [hf, hd, ha] at h; tauto
      · simp [hf, hd, ha] at h; tauto
    · simp [hf, hd] at h
  · simp [hf] at h

theorem gitAdd_mem_perFileEvents (env : RunEnv) (prev : List (Str × Str))
    (f rel : Str) :
    Event.gitAdd rel ∈ perFileEvents env prev f ↔
      f = rel ∧ env.isfile (fullPathOf f) = true ∧ isDirty prev env f = true := by
  unfold perFileEvents
  by_cases hf : env.isfile (fullPathOf f)
  · by_cases hd : isDirty prev env f
    · by_cases ha : env.addExitZero f
      · simp [hf, hd, ha, eq_comm]
      · simp [hf, hd, ha, eq_comm]
    · simp [hf, hd]
  · simp [hf]

theorem gitAdd_mem_scanResult (env : RunEnv) (prev : List (Str × Str)) (rel : Str) :
    Event.gitAdd rel ∈ (scanResult env prev).events ↔
      rel ∈ env.files ∧ env.isfile (fullPathOf rel) = true ∧
        isDirty prev env rel = true := by
  rw [scanResult_events]
  simp only [List.mem_flatten, List.mem_map]
  constructor
  · rintro ⟨l, ⟨f, hf, rfl⟩, hmem⟩
    rcases (gitAdd_mem_perFileEvents env prev f rel).mp hmem with ⟨rfl, h1, h2⟩
    exact ⟨hf, h1, h2⟩
  · rintro ⟨hmem, h1, h2⟩
    exact ⟨perFileEvents env prev rel, ⟨rel, hmem, rfl⟩,
      (gitAdd_mem_perFileEvents env prev rel rel).mpr ⟨rfl, h1, h2⟩⟩

theorem mem_scanResult_shape (env : RunEnv) (prev : List (Str × Str)) (e : Event)
    (h : e ∈ (scanResult env prev).events) :
    ∃ rel, e = Event.gitAdd rel ∨ e = Event.logE (LogMsg.fileChanged rel) ∨
      e = Event.logE (LogMsg.addError rel) := by
  rw [scanResult_events] at h
  simp only [List.mem_flatten, List.mem_map] at h
  rcases h with ⟨l, ⟨f, _, rfl⟩, hmem⟩
  exact ⟨f, mem_perFileEvents env prev f e hmem⟩

theorem mem_pullPhase_shape (env : RunEnv) (e : Event) (h : e ∈ pullPhase env) :
    e = Event.gitPull ∨ e = Event.listConflicted ∨ e = Event.abortMerge ∨
      e = Event.preserveVersions env.pullConflictPaths ∨ ∃ m, e = Event.logE m := by
  unfold pullPhase at h
  by_cases h1 : env.internetPull
  · by_cases h2 : env.pullExitZero
    · simp [h1, h2] at h; tauto
    · by_cases h3 : env.pullConflictMarker
      · simp [h1, h2, h3] at h; tauto
      · simp [h1, h2, h3] at h; tauto
  · simp [h1] at h; tauto

theorem mem_publishPhase_shape (env : RunEnv) (e : Event) (h : e ∈ publishPhase env) :
    e = Event.gitRebasePull ∨ e = Event.gitPush ∨ e = Event.listConflicted ∨
      e = Event.abortRebase ∨ e = Event.preserveVersions env.rebaseConflictPaths ∨
      ∃ m, e = Event.logE m := by
  unfold publishPhase at h
  by_cases h1 : env.internetPush
  · by_cases h2 : env.rebaseExitZero
    · by_cases h4 : env.pushExitZero
      · simp [h1, h2, h4] at h; tauto
      · simp [h1, h2, h4] at h; tauto
    · by_cases h3 : env.rebaseConflictMarker
      · simp [h1, h2, h3] at h; tauto
      · simp [h1, h2, h3] at h; tauto
  · simp [h1] at h; tauto

theorem gitPush_mem_publishPhase (env : RunEnv) :
    Event.gitPush ∈ publishPhase env ↔
      env.internetPush = true ∧ env.rebaseExitZero = true := by
  unfold publishPhase
  by_cases h1 : env.internetPush
  · by_cases h2 : env.rebaseExitZero
    · by_cases h4 : env.pushExitZero
      · simp [h1, h2, h4]
      · simp [h1, h2, h4]
    · by_cases h3 : env.rebaseConflictMarker
      · simp [h1, h2, h3]
      · simp [h1, h2, h3]
  · simp [h1]

-- ---------------------------------------------------------------------------
-- The two successful outcomes of sync_repo
-- ---------------------------------------------------------------------------

theorem proxyEvents_eq_nil : proxyEvents = [] := rfl

theorem sync_repo_ok_changed (env : RunEnv) (storeFile : Option Str)
    (prev : List (Str × Str)) (hload : load_hashes storeFile = Except.ok prev)
    (hch : (scanResult env prev).changed = true) :
    sync_repo env storeFile = Except.ok
      { events := pullPhase env ++ (scanResult env prev).events
          ++ [Event.gitCommit (COMMIT_MESSAGE env.computerName env.currentTime),
              Event.logE LogMsg.committedLocally]
          ++ publishPhase env ++ [Event.saveStore (scanResult env prev).hashes],
        changed := true,
        newHashes := (scanResult env prev).hashes,
        store := some (save_hashes (scanResult env prev).hashes) } := by
  unfold sync_repo
  rw [hload]
  simp [hch, proxyEvents_eq_nil]

theorem sync_repo_ok_unchanged (env : RunEnv) (storeFile : Option Str)
    (prev : List (Str × Str)) (hload : load_hashes storeFile = Except.ok prev)
    (hch : (scanResult env prev).changed = false) :
    sync_repo env storeFile = Except.ok
      { events := pullPhase env ++ (scanResult env prev).events
          ++ [Event.logE LogMsg.noNewChanges],
        changed := false,
        newHashes := (scanResult env prev).hashes,
        store := storeFile } := by
  unfold sync_repo
  rw [hload]
  simp [hch, proxyEvents_eq_nil]

/-- An accepted run with `changed = true` comes from a scan that staged
something, and the run result is the canonical changed-run record. -/
theorem sync_repo_changed_inv (env : RunEnv) (storeFile : Option Str)
    (prev : List (Str × Str)) (r : RunResult)
    (hload : load_hashes storeFile = Except.ok prev)
    (hrun : sync_repo env storeFile = Except.ok r) (hch : r.changed = true) :
    (scanResult env prev).changed = true ∧
      r = { events := pullPhase env ++ (scanResult env prev).events
              ++ [Event.gitCommit (COMMIT_MESSAGE env.computerName env.currentTime),
                  Event.logE LogMsg.committedLocally]
              ++ publishPhase env ++ [Event.saveStore (scanResult env prev).hashes],
            changed := true,
            newHashes := (scanResult env prev).hashes,
            store := some (save_hashes (scanResult env prev).hashes) } := by
  by_cases hsc : (scanResult env prev).changed = true
  · rw [sync_repo_ok_changed env storeFile prev hload hsc] at hrun
    exact ⟨hsc, (Except.ok.injEq _ _).mp hrun.symm⟩
  · rw [sync_repo_ok_unchanged env storeFile prev hload (by simpa using hsc)] at hrun
    have := (Except.ok.injEq _ _).mp hrun.symm
    rw [this] at hch
    simp at hch

theorem sync_repo_unchanged_inv (env : RunEnv) (storeFile : Option Str)
    (prev : List (Str × Str)) (r : RunResult)
    (hload : load_hashes storeFile = Except.ok prev)
    (hrun : sync_repo env storeFile = Except.ok r) (hch : r.changed = false) :
    (scanResult env prev).changed = false ∧
      r = { events := pullPhase env ++ (scanResult env prev).events
              ++ [Event.logE LogMsg.noNewChanges],
            changed := false,
            newHashes := (scanResult env prev).hashes,
            store := storeFile } := by
  by_cases hsc : (scanResult env prev).changed = true
  · rw [sync_repo_ok_changed env storeFile prev hload hsc] at hrun
    have := (Except.ok.injEq _ _).mp hrun.symm
    rw [this] at hch
    simp at hch
  · have hsc' : (scanResult env prev).changed = false := by simpa using hsc
    rw [sync_repo_ok_unchanged env storeFile prev hload hsc'] at hrun
    exact ⟨hsc', (Except.ok.injEq _ _).mp hrun.symm⟩

-- ---------------------------------------------------------------------------
-- Events that a phase can never emit
-- ---------------------------------------------------------------------------

theorem gitAdd_not_mem_pullPhase (env : RunEnv) (rel : Str) :
    Event.gitAdd rel ∉ pullPhase env := by
  intro h
  rcases mem_pullPhase_shape env _ h with h | h | h | h | ⟨m, h⟩ <;> simp at h

theorem gitAdd_not_mem_publishPhase (env : RunEnv) (rel : Str) :
    Event.gitAdd rel ∉ publishPhase env := by
  intro h
  rcases mem_publishPhase_shape env _ h with h | h | h | h | h | ⟨m, h⟩ <;> simp at h

theorem gitCommit_not_mem_pullPhase (env : RunEnv) (msg : Str) :
    Event.gitCommit msg ∉ pullPhase env := by
  intro h
  rcases mem_pullPhase_shape env _ h with h | h | h | h | ⟨m, h⟩ <;> simp at h

theorem gitCommit_not_mem_publishPhase (env : RunEnv) (msg : Str) :
    Event.gitCommit msg ∉ publishPhase env := by
  intro h
  rcases mem_publishPhase_shape env _ h with h | h | h | h | h | ⟨m, h⟩ <;> simp at h

theorem gitCommit_not_mem_scan (env : RunEnv) (prev : List (Str × Str)) (msg : Str) :
    Event.gitCommit msg ∉ (scanResult env prev).events := by
  intro h
  rcases mem_scanResult_shape env prev _ h with ⟨rel, h | h | h⟩ <;> simp at h

theorem gitRebasePull_not_mem_pullPhase (env : RunEnv) :
    Event.gitRebasePull ∉ pullPhase env := by
  intro h
  rcases mem_pullPhase_shape env _ h with h | h | h | h | ⟨m, h⟩ <;> simp at h

theorem gitRebasePull_not_mem_scan (env : RunEnv) (prev : List (Str × Str)) :
    Event.gitRebasePull ∉ (scanResult env prev).events := by
  intro h
  rcases mem_scanResult_shape env prev _ h with ⟨rel, h | h | h⟩ <;> simp at h

theorem gitPush_not_mem_pullPhase (env : RunEnv) :
    Event.gitPush ∉ pullPhase env := by
  intro h
  rcases mem_pullPhase_shape env _ h with h | h | h | h | ⟨m, h⟩ <;> simp at h

theorem gitPush_not_mem_scan (env : RunEnv) (prev : List (Str × Str)) :
    Event.gitPush ∉ (scanResult env prev).events := by
  intro h
  rcases mem_scanResult_shape env prev _ h with ⟨rel, h | h | h⟩ <;> simp at h

theorem saveStore_not_mem_pullPhase (env : RunEnv) (m : List (Str × Str)) :
    Event.saveStore m ∉ pullPhase env := by
  intro h
  rcases mem_pullPhase_shape env _ h with h | h | h | h | ⟨w, h⟩ <;> simp at h

theorem saveStore_not_mem_publishPhase (env : RunEnv) (m : List (Str × Str)) :
    Event.saveStore m ∉ publishPhase env := by
  intro h
  rcases mem_publishPhase_shape env _ h with h | h | h | h | h | ⟨w, h⟩ <;> simp at h

theorem saveStore_not_mem_scan (env : RunEnv) (prev : List (Str × Str))
    (m : List (Str × Str)) :
    Event.saveStore m ∉ (scanResult env prev).events := by
  intro h
  rcases mem_scanResult_shape env prev _ h with ⟨rel, h | h | h⟩ <;> simp at h

theorem commitErrorLog_not_mem_pullPhase (env : RunEnv) :
    Event.logE LogMsg.commitError ∉ pullPhase env := by
  unfold pullPhase
  by_cases h1 : env.internetPull
  · by_cases h2 : env.pullExitZero
    · simp [h1, h2]
    · by_cases h3 : env.pullConflictMarker
      · simp [h1, h2, h3]
      · simp [h1, h2, h3]
  · simp [h1]

theorem commitErrorLog_not_mem_publishPhase (env : RunEnv) :
    Event.logE LogMsg.commitError ∉ publishPhase env := by
  unfold publishPhase
  by_cases h1 : env.internetPush
  · by_cases h2 : env.rebaseExitZero
    · by_cases h4 : env.pushExitZero
      · simp [h1, h2, h4]
      · simp [h1, h2, h4]
    · by_cases h3 : env.rebaseConflictMarker
      · simp [h1, h2, h3]
      · simp [h1, h2, h3]
  · simp [h1]

theorem commitErrorLog_not_mem_scan (env : RunEnv) (prev : List (Str × Str)) :
    Event.logE LogMsg.commitError ∉ (scanResult env prev).events := by
  intro h
  rcases mem_scanResult_shape env prev _ h with ⟨rel, h | h | h⟩ <;> simp at h

-- ---------------------------------------------------------------------------
-- Concrete environments used to instantiate the theorems
-- ---------------------------------------------------------------------------

/-- One new file `a` on disk, no existing store, network down both times. -/
def wEnv : RunEnv :=
  { computerName := "host1".toList
    currentTime := "2026-10-12 00:00:00".toList
    internetPull := false
    pullExitZero := true
    pullConflictMarker := false
    pullConflictPaths := []
    files := ["a".toList]
    isfile := fun _ => true
    digest := fun _ => "d1".toList
    addExitZero := fun _ => true
    commitExitZero := true
    internetPush := false
    rebaseExitZero := true
    rebaseConflictMarker := false
    rebaseConflictPaths := []
    pushExitZero := true }

/-- The result record of a run that succeeded (used to state witnesses). -/
def runOutput (env : RunEnv) (storeFile : Option Str) : RunResult :=
  ((sync_repo env storeFile).toOption).getD ⟨[], false, [], none⟩

-- ---------------------------------------------------------------------------
-- C1
-- ---------------------------------------------------------------------------

/-- C1: in every accepted run, a path is staged (its `git add` is invoked)
iff it was enumerated, is an on-disk regular file, and is dirty: absent from
the loaded mapping or carrying a digest different from the stored one.  A
path whose stored digest matches its computed digest is not staged. -/
theorem detection_correctness_c1 (env : RunEnv) (storeFile : Option Str)
    (previous_hashes : List (Str × Str)) (r : RunResult)
    (hload : load_hashes storeFile = Except.ok previous_hashes)
    (hrun : sync_repo env storeFile = Except.ok r) (rel : Str) :
    Event.gitAdd rel ∈ r.events ↔
      (rel ∈ env.files ∧ env.isfile (fullPathOf rel) = true ∧
        isDirty previous_hashes env rel = true) := by
  cases hb : r.changed
  case true =>
    obtain ⟨hsc, hr⟩ := sync_repo_changed_inv env storeFile previous_hashes r hload hrun hb
    subst hr
    simp [gitAdd_not_mem_pullPhase env rel, gitAdd_not_mem_publishPhase env rel,
      gitAdd_mem_scanResult]
  case false =>
    obtain ⟨hsc, hr⟩ := sync_repo_unchanged_inv env storeFile previous_hashes r hload hrun hb
    subst hr
    simp [gitAdd_not_mem_pullPhase env rel, gitAdd_mem_scanResult]

theorem detection_correctness_c1_witness :
    Event.gitAdd "a".toList ∈ (runOutput wEnv none).events ↔
      ("a".toList ∈ wEnv.files ∧ wEnv.isfile (fullPathOf "a".toList) = true ∧
        isDirty [] wEnv "a".toList = true) :=
  detection_correctness_c1 wEnv none [] (runOutput wEnv none) rfl (by decide) "a".toList

-- ---------------------------------------------------------------------------
-- C3
-- ---------------------------------------------------------------------------

/-- C3: in every run that staged something, the store is persisted with the
working mapping after the publish phase has completed, whatever the publish
outcome was (rebase conflict, failed push, or unreachable network are all
shapes of `publishPhase`), so the persisted store reflects the post-commit
digests. -/
theorem persist_regardless_c3 (env : RunEnv) (storeFile : Option Str)
    (previous_hashes : List (Str × Str)) (r : RunResult)
    (hload : load_hashes storeFile = Except.ok previous_hashes)
    (hrun : sync_repo env storeFile = Except.ok r) (hch : r.changed = true) :
    r.store = some (save_hashes r.newHashes) ∧
      ∃ pre, r.events = pre ++ publishPhase env ++ [Event.saveStore r.newHashes] := by
  obtain ⟨hsc, hr⟩ := sync_repo_changed_inv env storeFile previous_hashes r hload hrun hch
  subst hr
  refine ⟨rfl, ⟨pullPhase env ++ (scanResult env previous_hashes).events
    ++ [Event.gitCommit (COMMIT_MESSAGE env.computerName env.currentTime),
        Event.logE LogMsg.committedLocally], ?_⟩⟩
  simp

theorem persist_regardless_c3_witness :
    (runOutput wEnv none).store = some (save_hashes (runOutput wEnv none).newHashes) ∧
      ∃ pre, (runOutput wEnv none).events =
        pre ++ publishPhase wEnv ++ [Event.saveStore (runOutput wEnv none).newHashes] :=
  persist_regardless_c3 wEnv none [] (runOutput wEnv none) rfl (by decide) (by decide)

-- ---------------------------------------------------------------------------
-- C7
-- ---------------------------------------------------------------------------

/-- C7: a run that staged nothing performs no commit, no rebase, no push,
and does not rewrite the fingerprint store: the persisted store is exactly
the one the run started from. -/
theorem unchanged_frame_c7 (env : RunEnv) (storeFile : Option Str)
    (previous_hashes : List (Str × Str)) (r : RunResult)
    (hload : load_hashes storeFile = Except.ok previous_hashes)
    (hrun : sync_repo env storeFile = Except.ok r) (hch : r.changed = false) :
    (∀ msg, Event.gitCommit msg ∉ r.events) ∧
      Event.gitRebasePull ∉ r.events ∧
      Event.gitPush ∉ r.events ∧
      (∀ m, Event.saveStore m ∉ r.events) ∧
      r.store = storeFile := by
  obtain ⟨hsc, hr⟩ := sync_repo_unchanged_inv env storeFile previous_hashes r hload hrun hch
  subst hr
  refine ⟨fun msg => ?_, ?_, ?_, fun m => ?_, rfl⟩ <;>
    simp [gitCommit_not_mem_pullPhase, gitCommit_not_mem_scan,
      gitRebasePull_not_mem_pullPhase, gitRebasePull_not_mem_scan,
      gitPush_not_mem_pullPhase, gitPush_not_mem_scan,
      saveStore_not_mem_pullPhase, saveStore_not_mem_scan]

/-- The concrete environment whose disk digests already match the store. -/
def c7Env : RunEnv := { wEnv with digest := fun _ => "d1".toList }

theorem unchanged_frame_c7_witness :
    (∀ msg, Event.gitCommit msg ∉ (runOutput c7Env (some "a||d1\n".toList)).events) ∧
      Event.gitRebasePull ∉ (runOutput c7Env (some "a||d1\n".toList)).events ∧
      Event.gitPush ∉ (runOutput c7Env (some "a||d1\n".toList)).events ∧
      (∀ m, Event.saveStore m ∉ (runOutput c7Env (some "a||d1\n".toList)).events) ∧
      (runOutput c7Env (some "a||d1\n".toList)).store = some "a||d1\n".toList :=
  unchanged_frame_c7 c7Env (some "a||d1\n".toList) [("a".toList, "d1".toList)]
    (runOutput c7Env (some "a||d1\n".toList)) (by decide) (by decide) (by decide)

-- ---------------------------------------------------------------------------
-- C9
-- ---------------------------------------------------------------------------

theorem scanResult_mem_of_mem (env : RunEnv) (prev : List (Str × Str)) (k : Str)
    (h : dictMem prev k = true) :
    dictMem (scanResult env prev).hashes k = true := by
  unfold dictMem at h ⊢
  rw [scanResult_get]
  by_cases hc : k ∈ env.files ∧ stagedOK env prev k = true
  · simp [hc]
  · simpa [hc] using h

/-- C9: entries are never removed from the working mapping: every key of the
loaded mapping is still a key of the run's final mapping, and the mapping
handed to save_hashes (the saveStore event) is exactly that final mapping —
so an entry for a deleted file is carried over indefinitely. -/
theorem store_keys_never_removed_c9 (env : RunEnv) (storeFile : Option Str)
    (previous_hashes : List (Str × Str)) (r : RunResult)
    (hload : load_hashes storeFile = Except.ok previous_hashes)
    (hrun : sync_repo env storeFile = Except.ok r) :
    (∀ k, dictMem previous_hashes k = true → dictMem r.newHashes k = true) ∧
      (∀ m, Event.saveStore m ∈ r.events → m = r.newHashes) := by
  cases hb : r.changed
  case true =>
    obtain ⟨hsc, hr⟩ := sync_repo_changed_inv env storeFile previous_hashes r hload hrun hb
    subst hr
    constructor
    · intro k hk
      exact scanResult_mem_of_mem env previous_hashes k hk
    · intro m hm
      simp [saveStore_not_mem_pullPhase, saveStore_not_mem_publishPhase,
        saveStore_not_mem_scan] at hm
      simpa using hm
  case false =>
    obtain ⟨hsc, hr⟩ := sync_repo_unchanged_inv env storeFile previous_hashes r hload hrun hb
    subst hr
    constructor
    · intro k hk
      exact scanResult_mem_of_mem env previous_hashes k hk
    · intro m hm
      simp [saveStore_not_mem_pullPhase, saveStore_not_mem_scan] at hm

theorem store_keys_never_removed_c9_witness :
    (∀ k, dictMem [("gone".toList, "d0".toList)] k = true →
      dictMem (runOutput wEnv (some "gone||d0\n".toList)).newHashes k = true) ∧
      (∀ m, Event.saveStore m ∈ (runOutput wEnv (some "gone||d0\n".toList)).events →
        m = (runOutput wEnv (some "gone||d0\n".toList)).newHashes) :=
  store_keys_never_removed_c9 wEnv (some "gone||d0\n".toList)
    [("gone".toList, "d0".toList)] (runOutput wEnv (some "gone||d0\n".toList))
    (by decide) (by decide)

-- ---------------------------------------------------------------------------
-- C2
-- ---------------------------------------------------------------------------

/-- Store has an entry for `ghost`, but on disk only `a` exists. -/
def c2Env : RunEnv :=
  { wEnv with
    isfile := fun q => q == "Конфиги/a".toList
    digest := fun _ => "da".toList }

/-- C2 counterexample: after a committed run, the persisted store still
contains the line `ghost||d0` although no file `ghost` exists on disk — the
claim's "no entry exists for a path with no corresponding file on disk" is
false. -/
theorem stale_entry_kept_c2_cex :
    (sync_repo c2Env (some "ghost||d0\n".toList)).map (fun r => (r.changed, r.store)) =
      Except.ok (true, some "ghost||d0\na||da\n".toList) ∧
      c2Env.isfile (fullPathOf "ghost".toList) = false ∧
      "ghost".toList ∉ c2Env.files := by decide

theorem isDirty_false_get (prev : List (Str × Str)) (env : RunEnv) (rel : Str)
    (h : isDirty prev env rel = false) :
    dictGet prev rel = some (env.digest (fullPathOf rel)) := by
  unfold isDirty at h
  rw [Bool.or_eq_false_iff] at h
  have h2 := h.2
  simp only [Bool.not_eq_false', beq_iff_eq] at h2
  exact h2

/-- C2 (amended): after a committed run the persisted store is the
serialization of the working mapping, in which every enumerated on-disk file
that was staged successfully — or was unchanged — maps to its current digest,
and every other entry (including entries for paths that no longer exist on
disk, and dirty paths whose staging failed) is carried over unmodified from
the loaded mapping; stale entries are never removed. -/
theorem store_invariant_c2_amended (env : RunEnv) (storeFile : Option Str)
    (previous_hashes : List (Str × Str)) (r : RunResult)
    (hload : load_hashes storeFile = Except.ok previous_hashes)
    (hrun : sync_repo env storeFile = Except.ok r) (hch : r.changed = true) :
    r.store = some (save_hashes r.newHashes) ∧
      (∀ rel, rel ∈ env.files → env.isfile (fullPathOf rel) = true →
        (env.addExitZero rel = true ∨ isDirty previous_hashes env rel = false) →
        dictGet r.newHashes rel = some (env.digest (fullPathOf rel))) ∧
      (∀ k, ¬(k ∈ env.files ∧ stagedOK env previous_hashes k = true) →
        dictGet r.newHashes k = dictGet previous_hashes k) := by
  obtain ⟨hsc, hr⟩ := sync_repo_changed_inv env storeFile previous_hashes r hload hrun hch
  subst hr
  refine ⟨rfl, ?_, ?_⟩
  · intro rel hmem hfile hok
    simp only [RunResult.mk.injEq]
    rw [scanResult_get]
    by_cases hd : isDirty previous_hashes env rel = true
    · have hadd : env.addExitZero rel = true := by
        rcases hok with h | h
        · exact h
        · rw [hd] at h; cases h
      rw [if_pos ⟨hmem, by simp [stagedOK, hfile, hd, hadd]⟩]
    · have hd' : isDirty previous_hashes env rel = false := by simpa using hd
      rw [if_neg (by simp [stagedOK, hd'])]
      exact isDirty_false_get previous_hashes env rel hd'
  · intro k hk
    rw [scanResult_get, if_neg hk]

theorem store_invariant_c2_witness :
    (runOutput c2Env (some "ghost||d0\n".toList)).store =
        some (save_hashes (runOutput c2Env (some "ghost||d0\n".toList)).newHashes) ∧
      (∀ rel, rel ∈ c2Env.files → c2Env.isfile (fullPathOf rel) = true →
        (c2Env.addExitZero rel = true ∨
          isDirty [("ghost".toList, "d0".toList)] c2Env rel = false) →
        dictGet (runOutput c2Env (some "ghost||d0\n".toList)).newHashes rel =
          some (c2Env.digest (fullPathOf rel))) ∧
      (∀ k, ¬(k ∈ c2Env.files ∧
          stagedOK c2Env [("ghost".toList, "d0".toList)] k = true) →
        dictGet (runOutput c2Env (some "ghost||d0\n".toList)).newHashes k =
          dictGet [("ghost".toList, "d0".toList)] k) :=
  store_invariant_c2_amended c2Env (some "ghost||d0\n".toList)
    [("ghost".toList, "d0".toList)] (runOutput c2Env (some "ghost||d0\n".toList))
    (by decide) (by decide) (by decide)

-- ---------------------------------------------------------------------------
-- C4
-- ---------------------------------------------------------------------------

/-- Same run as wEnv but the commit exits non-zero. -/
def c4EnvFail : RunEnv := { wEnv with commitExitZero := false }

/-- C4 counterexample: with the commit exiting non-zero, the run emits the
unconditional "committed locally" log line, emits no commit-error log line
at all, and behaves identically to the run whose commit exited zero — so the
claim's "a non-zero exit status of the commit operation is logged" is false
(check=False makes the error branch unreachable). -/
theorem commit_error_not_logged_c4_cex :
    sync_repo c4EnvFail none = sync_repo wEnv none ∧
      (sync_repo c4EnvFail none).map
        (fun r => (decide (Event.logE LogMsg.committedLocally ∈ r.events),
          decide (Event.logE LogMsg.commitError ∈ r.events), r.changed)) =
        Except.ok (true, false, true) := by decide

/-- C4 (amended): when something was staged, the commit is invoked unchecked
with a message identifying the originating host and timestamp, and the run
proceeds to the publish phase and the store write regardless of the commit
exit status — but a non-zero commit exit is not itself logged: the
unconditional success message is logged and no commit-error log line can
occur, and the whole run is independent of the commit exit status. -/
theorem commit_unchecked_c4_amended (env : RunEnv) (storeFile : Option Str)
    (previous_hashes : List (Str × Str)) (r : RunResult)
    (hload : load_hashes storeFile = Except.ok previous_hashes)
    (hrun : sync_repo env storeFile = Except.ok r) (hch : r.changed = true) :
    Event.gitCommit (COMMIT_MESSAGE env.computerName env.currentTime) ∈ r.events ∧
      (∃ s t, COMMIT_MESSAGE env.computerName env.currentTime =
        s ++ env.computerName ++ t) ∧
      (∃ s t, COMMIT_MESSAGE env.computerName env.currentTime =
        s ++ env.currentTime ++ t) ∧
      Event.logE LogMsg.committedLocally ∈ r.events ∧
      Event.logE LogMsg.commitError ∉ r.events ∧
      (∃ pre, r.events = pre ++ publishPhase env ++ [Event.saveStore r.newHashes]) ∧
      (∀ b, sync_repo { env with commitExitZero := b } storeFile =
        sync_repo env storeFile) := by
  obtain ⟨hsc, hr⟩ := sync_repo_changed_inv env storeFile previous_hashes r hload hrun hch
  subst hr
  refine ⟨by simp, ?_, ?_, by simp, ?_, ?_, fun b => rfl⟩
  · exact ⟨"Автообновление [".toList, ' ' :: env.currentTime ++ [']'],
      by simp [COMMIT_MESSAGE]⟩
  · refine ⟨"Автообновление [".toList ++ env.computerName ++ [' '], [']'], ?_⟩
    simp [COMMIT_MESSAGE]
  · simp [commitErrorLog_not_mem_pullPhase, commitErrorLog_not_mem_publishPhase,
      commitErrorLog_not_mem_scan]
  · refine ⟨pullPhase env ++ (scanResult env previous_hashes).events
      ++ [Event.gitCommit (COMMIT_MESSAGE env.computerName env.currentTime),
          Event.logE LogMsg.committedLocally], ?_⟩
    simp

theorem commit_unchecked_c4_witness :
    Event.gitCommit (COMMIT_MESSAGE wEnv.computerName wEnv.currentTime) ∈
        (runOutput wEnv none).events ∧
      (∃ s t, COMMIT_MESSAGE wEnv.computerName wEnv.currentTime =
        s ++ wEnv.computerName ++ t) ∧
      (∃ s t, COMMIT_MESSAGE wEnv.computerName wEnv.currentTime =
        s ++ wEnv.currentTime ++ t) ∧
      Event.logE LogMsg.committedLocally ∈ (runOutput wEnv none).events ∧
      Event.logE LogMsg.commitError ∉ (runOutput wEnv none).events ∧
      (∃ pre, (runOutput wEnv none).events =
        pre ++ publishPhase wEnv ++ [Event.saveStore (runOutput wEnv none).newHashes]) ∧
      (∀ b, sync_repo { wEnv with commitExitZero := b } none = sync_repo wEnv none) :=
  commit_unchecked_c4_amended wEnv none [] (runOutput wEnv none)
    (by decide) (by decide) (by decide)

-- ---------------------------------------------------------------------------
-- C6
-- ---------------------------------------------------------------------------

/-- C6: in a committed run with the network reachable, the rebase pull is
invoked unchecked; on a non-zero exit whose output carries the conflict
marker, the conflicted paths are listed and handed to the preserver, the
rebase is aborted, and no push happens; the push is invoked exactly when the
rebase exited zero. -/
theorem publish_recovery_c6 (env : RunEnv) (storeFile : Option Str)
    (previous_hashes : List (Str × Str)) (r : RunResult)
    (hload : load_hashes storeFile = Except.ok previous_hashes)
    (hrun : sync_repo env storeFile = Except.ok r) (hch : r.changed = true)
    (hnet : env.internetPush = true) :
    Event.gitRebasePull ∈ r.events ∧
      (env.rebaseExitZero = false → env.rebaseConflictMarker = true →
        Event.listConflicted ∈ r.events ∧
        Event.preserveVersions env.rebaseConflictPaths ∈ r.events ∧
        Event.abortRebase ∈ r.events ∧
        Event.gitPush ∉ r.events) ∧
      (Event.gitPush ∈ r.events ↔ env.rebaseExitZero = true) := by
  obtain ⟨hsc, hr⟩ := sync_repo_changed_inv env storeFile previous_hashes r hload hrun hch
  subst hr
  refine ⟨?_, ?_, ?_⟩
  · have : Event.gitRebasePull ∈ publishPhase env := by
      unfold publishPhase
      simp [hnet]
    simp [this]
  · intro hz hm
    have hpub : publishPhase env =
        [Event.gitRebasePull, Event.logE LogMsg.rebaseConflictDetected,
         Event.listConflicted, Event.preserveVersions env.rebaseConflictPaths,
         Event.abortRebase] := by
      unfold publishPhase
      simp [hnet, hz, hm]
    refine ⟨?_, ?_, ?_, ?_⟩
    · simp [hpub]
    · simp [hpub]
    · simp [hpub]
    · simp [hpub, gitPush_not_mem_pullPhase, gitPush_not_mem_scan]
  · constructor
    · intro h
      simp [gitPush_not_mem_pullPhase, gitPush_not_mem_scan] at h
      exact ((gitPush_mem_publishPhase env).mp h).2
    · intro h
      have : Event.gitPush ∈ publishPhase env :=
        (gitPush_mem_publishPhase env).mpr ⟨hnet, h⟩
      simp [this]

/-- Like wEnv but with the network up at publish time and a conflicted
rebase. -/
def c6Env : RunEnv :=
  { wEnv with
    internetPush := true
    rebaseExitZero := false
    rebaseConflictMarker := true
    rebaseConflictPaths := ["a".toList] }

theorem publish_recovery_c6_witness :
    Event.gitRebasePull ∈ (runOutput c6Env none).events ∧
      (c6Env.rebaseExitZero = false → c6Env.rebaseConflictMarker = true →
        Event.listConflicted ∈ (runOutput c6Env none).events ∧
        Event.preserveVersions c6Env.rebaseConflictPaths ∈ (runOutput c6Env none).events ∧
        Event.abortRebase ∈ (runOutput c6Env none).events ∧
        Event.gitPush ∉ (runOutput c6Env none).events) ∧
      (Event.gitPush ∈ (runOutput c6Env none).events ↔ c6Env.rebaseExitZero = true) :=
  publish_recovery_c6 c6Env none [] (runOutput c6Env none)
    (by decide) (by decide) (by decide) (by decide)

-- ---------------------------------------------------------------------------
-- C8
-- ---------------------------------------------------------------------------

theorem parseLine_err_iff (line : Str) :
    parseLine line = Except.error LoadErr.corruptStore ↔
      (splitBars (pyStrip line)).length ≠ 2 := by
  unfold parseLine
  rcases h : splitBars (pyStrip line) with _ | ⟨a, _ | ⟨b, _ | ⟨c, t⟩⟩⟩ <;> simp

theorem parseLine_ok_of_two (line : Str)
    (h : (splitBars (pyStrip line)).length = 2) :
    ∃ pr, parseLine line = Except.ok pr := by
  unfold parseLine
  rcases hs : splitBars (pyStrip line) with _ | ⟨a, _ | ⟨b, _ | ⟨c, t⟩⟩⟩ <;>
    simp [hs] at h ⊢

theorem loadLines_error (lines : List Str) :
    ∀ acc, (∃ l ∈ lines, parseLine l = Except.error LoadErr.corruptStore) →
      loadLines lines acc = Except.error LoadErr.corruptStore := by
  induction lines with
  | nil => intro acc h; simp at h
  | cons a t ih =>
    intro acc ⟨l, hl, herr⟩
    unfold loadLines
    cases hp : parseLine a with
    | error e => cases e; rfl
    | ok pr =>
      rcases List.mem_cons.mp hl with rfl | hl'
      · rw [hp] at herr; cases herr
      · exact ih _ ⟨l, hl', herr⟩

theorem loadLines_ok (lines : List Str) :
    ∀ acc, (∀ l ∈ lines, ∃ pr, parseLine l = Except.ok pr) →
      ∃ m, loadLines lines acc = Except.ok m := by
  induction lines with
  | nil => intro acc _; exact ⟨acc, rfl⟩
  | cons a t ih =>
    intro acc hall
    obtain ⟨pr, hp⟩ := hall a (List.mem_cons_self a t)
    unfold loadLines
    rw [hp]
    exact ih _ (fun l hl => hall l (List.mem_cons_of_mem a hl))

/-- C8: loading an existing store file fails with the corrupt-store error
exactly when some line does not split into two fields on the delimiter; the
failure is fatal for the run (sync_repo itself returns the error, before any
staging or commit).  When every line splits into two fields the load
succeeds. -/
theorem corrupt_store_fatal_c8 (content : Str) (env : RunEnv) :
    ((∃ line ∈ pyFileLines content, (splitBars (pyStrip line)).length ≠ 2) →
      load_hashes (some content) = Except.error LoadErr.corruptStore ∧
        sync_repo env (some content) = Except.error LoadErr.corruptStore) ∧
      ((∀ line ∈ pyFileLines content, (splitBars (pyStrip line)).length = 2) →
        ∃ m, load_hashes (some content) = Except.ok m) := by
  constructor
  · intro ⟨l, hl, hbad⟩
    have herr : load_hashes (some content) = Except.error LoadErr.corruptStore :=
      loadLines_error _ _ ⟨l, hl, (parseLine_err_iff l).mpr hbad⟩
    refine ⟨herr, ?_⟩
    unfold sync_repo
    rw [herr]
  · intro hall
    exact loadLines_ok _ _ (fun l hl => parseLine_ok_of_two l (hall l hl))

theorem corrupt_store_fatal_c8_witness :
    (load_hashes (some "oops\n".toList) = Except.error LoadErr.corruptStore ∧
      sync_repo wEnv (some "oops\n".toList) = Except.error LoadErr.corruptStore) ∧
      (∃ m, load_hashes (some "a||b\n".toList) = Except.ok m) :=
  ⟨(corrupt_store_fatal_c8 "oops\n".toList wEnv).1 (by decide),
    (corrupt_store_fatal_c8 "a||b\n".toList wEnv).2 (by decide)⟩

-- ---------------------------------------------------------------------------
-- C5
-- ---------------------------------------------------------------------------

theorem preserveStep_apply_other (gitShow : Str → Str) (fs : Str → Option Str)
    (q k : Str) (h1 : k ≠ localVersionPath q) (h2 : k ≠ remoteVersionPath q) :
    preserveStep gitShow fs q k = fs k := by
  unfold preserveStep fsWrite
  simp [h1, h2]

theorem preserve_untouched (gitShow : Str → Str) (k : Str) :
    ∀ (l : List Str) (fs : Str → Option Str),
      (∀ q ∈ l, localVersionPath q ≠ k ∧ remoteVersionPath q ≠ k) →
      save_conflict_versions gitShow l fs k = fs k := by
  intro l
  induction l with
  | nil => intro fs _; rfl
  | cons a t ih =>
    intro fs h
    unfold save_conflict_versions at ih ⊢
    rw [List.foldl_cons, ih _ (fun q hq => h q (List.mem_cons_of_mem a hq))]
    have ha := h a (List.mem_cons_self a t)
    exact preserveStep_apply_other gitShow fs a k (Ne.symm ha.1) (Ne.symm ha.2)

/-- C5 counterexample: with conflict set `[x, LOCAL_x]`, preserving `x`
writes the HEAD version of `x` to `Конфиги/LOCAL_x` — the on-disk path of
the original conflicted file `LOCAL_x`.  The preserver thus rewrote an
original conflicted file, refuting the claim's "the original conflicted
file p itself is not rewritten by the preserver". -/
theorem conflict_preserver_overwrites_c5_cex :
    "LOCAL_x".toList ∈ ["x".toList, "LOCAL_x".toList] ∧
      save_conflict_versions (fun spec => "ver:".toList ++ spec)
          ["x".toList, "LOCAL_x".toList]
          (fun q => if q = "Конфиги/LOCAL_x".toList then
            some "conflicted working copy".toList else none)
          (pyJoin LOCAL_REPO "LOCAL_x".toList) ≠
        (fun q : Str => if q = "Конфиги/LOCAL_x".toList then
            some "conflicted working copy".toList else none)
          (pyJoin LOCAL_REPO "LOCAL_x".toList) := by decide

/-- C5 (amended): for every path p in the conflicted sequence, the preserver
writes p's HEAD bytes to the LOCAL_-prefixed sibling and p's
origin/<branch> bytes to the REMOTE_-prefixed sibling, and the original
file p is left untouched — provided the artifact paths of the conflicted
paths are pairwise distinct and no artifact path coincides with a
conflicted file's own on-disk path (which fails when the conflict set
contains both a file `x` and a marker-named sibling `LOCAL_x`). -/
theorem conflict_preservation_c5_amended (gitShow : Str → Str)
    (conflicted : List Str) (p : Str) :
    ∀ (fs : Str → Option Str),
      p ∈ conflicted →
      localVersionPath p ≠ remoteVersionPath p →
      (∀ q ∈ conflicted, q = p ∨
        (localVersionPath q ≠ localVersionPath p ∧
         remoteVersionPath q ≠ localVersionPath p ∧
         localVersionPath q ≠ remoteVersionPath p ∧
         remoteVersionPath q ≠ remoteVersionPath p)) →
      (∀ q ∈ conflicted, localVersionPath q ≠ pyJoin LOCAL_REPO p ∧
        remoteVersionPath q ≠ pyJoin LOCAL_REPO p) →
      save_conflict_versions gitShow conflicted fs (localVersionPath p) =
          some (gitShow ("HEAD:".toList ++ p)) ∧
        save_conflict_versions gitShow conflicted fs (remoteVersionPath p) =
          some (gitShow ("origin/".toList ++ BRANCH ++ ':' :: p)) ∧
        save_conflict_versions gitShow conflicted fs (pyJoin LOCAL_REPO p) =
          fs (pyJoin LOCAL_REPO p) := by
  induction conflicted with
  | nil => intro fs hp; simp at hp
  | cons a t ih =>
    intro fs hp hlr hsafe horig
    by_cases hpt : p ∈ t
    · have ihr := ih (preserveStep gitShow fs a) hpt hlr
        (fun q hq => hsafe q (List.mem_cons_of_mem a hq))
        (fun q hq => horig q (List.mem_cons_of_mem a hq))
      have hstep : save_conflict_versions gitShow (a :: t) fs =
          save_conflict_versions gitShow t (preserveStep gitShow fs a) := by
        unfold save_conflict_versions
        rw [List.foldl_cons]
      rw [hstep]
      refine ⟨ihr.1, ihr.2.1, ?_⟩
      rw [ihr.2.2]
      have ha := horig a (List.mem_cons_self a t)
      exact preserveStep_apply_other gitShow fs a _ (Ne.symm ha.1) (Ne.symm ha.2)
    · have hap : a = p := by
        rcases List.mem_cons.mp hp with h | h
        · exact h.symm
        · exact absurd h hpt
      subst hap
      have hstep : save_conflict_versions gitShow (a :: t) fs =
          save_conflict_versions gitShow t (preserveStep gitShow fs a) := by
        unfold save_conflict_versions
        rw [List.foldl_cons]
      have htq : ∀ q ∈ t,
          localVersionPath q ≠ localVersionPath a ∧
          remoteVersionPath q ≠ localVersionPath a ∧
          localVersionPath q ≠ remoteVersionPath a ∧
          remoteVersionPath q ≠ remoteVersionPath a := by
        intro q hq
        rcases hsafe q (List.mem_cons_of_mem a hq) with h | h
        · subst h; exact absurd hq hpt
        · exact h
      refine ⟨?_, ?_, ?_⟩
      · rw [hstep, preserve_untouched gitShow _ t _
          (fun q hq => ⟨(htq q hq).1, (htq q hq).2.1⟩)]
        unfold preserveStep fsWrite
        simp [hlr]
      · rw [hstep, preserve_untouched gitShow _ t _
          (fun q hq => ⟨(htq q hq).2.2.1, (htq q hq).2.2.2⟩)]
        unfold preserveStep fsWrite
        simp
      · rw [hstep, preserve_untouched gitShow _ t _
          (fun q hq => horig q (List.mem_cons_of_mem a hq))]
        have ha := horig a (List.mem_cons_self a t)
        exact preserveStep_apply_other gitShow fs a _ (Ne.symm ha.1) (Ne.symm ha.2)

theorem conflict_preservation_c5_witness :
    save_conflict_versions (fun spec => "ver:".toList ++ spec) ["x".toList]
        (fun _ => none) (localVersionPath "x".toList) =
        some ((fun spec => "ver:".toList ++ spec) ("HEAD:".toList ++ "x".toList)) ∧
      save_conflict_versions (fun spec => "ver:".toList ++ spec) ["x".toList]
        (fun _ => none) (remoteVersionPath "x".toList) =
        some ((fun spec => "ver:".toList ++ spec)
          ("origin/".toList ++ BRANCH ++ ':' :: "x".toList)) ∧
      save_conflict_versions (fun spec => "ver:".toList ++ spec) ["x".toList]
        (fun _ => none) (pyJoin LOCAL_REPO "x".toList) =
        (fun _ : Str => (none : Option Str)) (pyJoin LOCAL_REPO "x".toList) :=
  conflict_preservation_c5_amended (fun spec => "ver:".toList ++ spec)
    ["x".toList] "x".toList (fun _ => none) (by decide) (by decide)
    (by decide) (by decide)

-- ---------------------------------------------------------------------------
-- C10: string-level lemmas
-- ---------------------------------------------------------------------------

theorem dropWhile_eq_self_of_head (l : List Char) (p : Char → Bool)
    (h : ∀ c, l.head? = some c → p c = false) : l.dropWhile p = l := by
  cases l with
  | nil => rfl
  | cons c t => simp [List.dropWhile_cons, h c rfl]

theorem pyStrip_eq_self (s : Str)
    (h1 : ∀ c, s.head? = some c → isPyWs c = false)
    (h2 : ∀ c, s.getLast? = some c → isPyWs c = false) : pyStrip s = s := by
  unfold pyStrip
  rw [dropWhile_eq_self_of_head s _ h1]
  rw [dropWhile_eq_self_of_head s.reverse _
    (fun c hc => h2 c (by rwa [List.head?_reverse] at hc))]
  exact List.reverse_reverse s

theorem pyUnivNewlines_eq_self (s : Str) (h : '\r' ∉ s) : pyUnivNewlines s = s := by
  induction s with
  | nil => rfl
  | cons c t ih =>
    have hc : c ≠ '\r' := fun hc => h (hc ▸ List.mem_cons_self c t)
    have ht : '\r' ∉ t := fun hm => h (List.mem_cons_of_mem c hm)
    cases t with
    | nil => simp [pyUnivNewlines, hc]
    | cons d t' =>
      simp only [pyUnivNewlines]
      rw [if_neg hc, ih ht]

theorem splitNl_no_nl (s : Str) (h : '\n' ∉ s) : splitNl s = [s] := by
  induction s with
  | nil => rfl
  | cons c t ih =>
    have hc : c ≠ '\n' := fun hc => h (hc ▸ List.mem_cons_self c t)
    have ht := ih (fun hm => h (List.mem_cons_of_mem c hm))
    simp [splitNl, hc, ht]

theorem splitNl_append (A rest : Str) (h : '\n' ∉ A) :
    splitNl (A ++ '\n' :: rest) = A :: splitNl rest := by
  induction A with
  | nil => simp [splitNl]
  | cons c t ih =>
    have hc : c ≠ '\n' := fun hc => h (hc ▸ List.mem_cons_self c t)
    have ht := ih (fun hm => h (List.mem_cons_of_mem c hm))
    simp [splitNl, hc, ht]

theorem splitBars_no_dd (s : Str) (h : hasDD s = false) : splitBars s = [s] := by
  induction s with
  | nil => rfl
  | cons c t ih =>
    cases t with
    | nil => rfl
    | cons d t' =>
      simp only [hasDD, Bool.or_eq_false_iff, Bool.and_eq_false_iff, beq_eq_false_iff_ne,
        ne_eq] at h
      have hcd : ¬(c = '|' ∧ d = '|') := by
        intro ⟨h1, h2⟩
        rcases h.1 with h' | h'
        · exact h' h1
        · exact h' h2
      simp only [splitBars]
      rw [if_neg hcd, ih h.2]

theorem splitBars_append (p rest : Str) (h1 : hasDD p = false)
    (h2 : p.getLast? ≠ some '|') :
    splitBars (p ++ '|' :: '|' :: rest) = p :: splitBars rest := by
  induction p with
  | nil => simp [splitBars]
  | cons c t ih =>
    cases t with
    | nil =>
      have hc : c ≠ '|' := by
        intro hc
        exact h2 (by simp [hc])
      simp [splitBars, hc]
    | cons d t' =>
      simp only [hasDD, Bool.or_eq_false_iff, Bool.and_eq_false_iff, beq_eq_false_iff_ne,
        ne_eq] at h1
      have hcd : ¬(c = '|' ∧ d = '|') := by
        intro ⟨hx, hy⟩
        rcases h1.1 with h' | h'
        · exact h' hx
        · exact h' hy
      have ht2 : (d :: t').getLast? ≠ some '|' := by
        rwa [List.getLast?_cons_cons] at h2
      have hrec := ih h1.2 ht2
      simp only [List.cons_append] at hrec ⊢
      simp only [splitBars]
      rw [if_neg hcd, hrec]

-- ---------------------------------------------------------------------------
-- C10: store roundtrip
-- ---------------------------------------------------------------------------

theorem mem_storeLine (c : Char) (pr : Str × Str) :
    c ∈ storeLine pr ↔ (c ∈ pr.1 ∨ c = '|' ∨ c ∈ pr.2) := by
  simp only [storeLine, List.mem_append, List.mem_cons]
  tauto

theorem cr_not_mem_save (m : List (Str × Str))
    (hc : ∀ pr ∈ m, '\r' ∉ pr.1 ∧ '\r' ∉ pr.2) : '\r' ∉ save_hashes m := by
  induction m with
  | nil => simp [save_hashes]
  | cons pr rest ih =>
    have hp := hc pr (List.mem_cons_self pr rest)
    intro hmem
    simp only [save_hashes, List.mem_append, List.mem_cons] at hmem
    rcases hmem with h | h | h
    · rcases (mem_storeLine _ pr).mp h with h' | h' | h'
      · exact hp.1 h'
      · exact absurd h' (by decide)
      · exact hp.2 h'
    · exact absurd h (by decide)
    · exact ih (fun q hq => hc q (List.mem_cons_of_mem pr hq)) h

theorem splitNl_save (m : List (Str × Str))
    (h : ∀ pr ∈ m, '\n' ∉ pr.1 ∧ '\n' ∉ pr.2) :
    splitNl (save_hashes m) = m.map storeLine ++ [[]] := by
  induction m with
  | nil => simp [save_hashes, splitNl]
  | cons pr rest ih =>
    have hp := h pr (List.mem_cons_self pr rest)
    have hnl : '\n' ∉ storeLine pr := by
      intro hm
      rcases (mem_storeLine _ pr).mp hm with h' | h' | h'
      · exact hp.1 h'
      · exact absurd h' (by decide)
      · exact hp.2 h'
    show splitNl (storeLine pr ++ '\n' :: save_hashes rest) = _
    rw [splitNl_append _ _ hnl, ih (fun q hq => h q (List.mem_cons_of_mem pr hq))]
    simp

theorem save_getLast (m : List (Str × Str)) (h : m ≠ []) :
    (save_hashes m).getLast? = some '\n' := by
  induction m with
  | nil => cases h rfl
  | cons pr rest ih =>
    by_cases hr : rest = []
    · subst hr
      show (storeLine pr ++ ['\n']).getLast? = some '\n'
      exact List.getLast?_concat _
    · have hrest := ih hr
      show (storeLine pr ++ '\n' :: save_hashes rest).getLast? = some '\n'
      rw [List.getLast?_append]
      rw [show '\n' :: save_hashes rest = ['\n'] ++ save_hashes rest from rfl]
      rw [List.getLast?_append, hrest]
      rfl

theorem pyFileLines_save (m : List (Str × Str))
    (h : ∀ pr ∈ m, '\n' ∉ pr.1 ∧ '\r' ∉ pr.1 ∧ '\n' ∉ pr.2 ∧ '\r' ∉ pr.2) :
    pyFileLines (save_hashes m) = m.map storeLine := by
  have hcr : '\r' ∉ save_hashes m :=
    cr_not_mem_save m (fun pr hpr => ⟨(h pr hpr).2.1, (h pr hpr).2.2.2⟩)
  have huniv : pyUnivNewlines (save_hashes m) = save_hashes m :=
    pyUnivNewlines_eq_self _ hcr
  cases m with
  | nil => rfl
  | cons pr rest =>
    have hne : save_hashes (pr :: rest) ≠ [] := by
      show storeLine pr ++ '\n' :: save_hashes rest ≠ []
      exact List.append_ne_nil_of_right_ne_nil _ (by simp)
    have hlast := save_getLast (pr :: rest) (by simp)
    unfold pyFileLines
    rw [huniv, if_neg hne, if_pos hlast,
      splitNl_save _ (fun q hq => ⟨(h q hq).1, (h q hq).2.2.1⟩)]
    rw [List.dropLast_concat]

theorem parse_storeLine (pr : Str × Str)
    (hd1 : hasDD pr.1 = false) (hl1 : pr.1.getLast? ≠ some '|')
    (hd2 : hasDD pr.2 = false)
    (hw1 : ∀ c, pr.1.head? = some c → isPyWs c = false)
    (hw2 : ∀ c, pr.2.getLast? = some c → isPyWs c = false) :
    parseLine (storeLine pr) = Except.ok pr := by
  have hstrip : pyStrip (storeLine pr) = storeLine pr := by
    apply pyStrip_eq_self
    · intro c hc
      cases hp : pr.1 with
      | nil =>
        rw [storeLine, hp] at hc
        simp at hc
        subst hc
        decide
      | cons a t =>
        rw [storeLine, hp] at hc
        simp at hc
        subst hc
        exact hw1 a (by rw [hp]; rfl)
    · intro c hc
      cases hp : pr.2 with
      | nil =>
        rw [storeLine, hp] at hc
        rw [show pr.1 ++ '|' :: '|' :: ([] : Str) = (pr.1 ++ ['|']) ++ ['|'] by simp] at hc
        rw [List.getLast?_concat] at hc
        cases hc
        decide
      | cons x xs =>
        rw [storeLine, hp, List.getLast?_append] at hc
        rw [List.getLast?_cons_cons, List.getLast?_cons_cons] at hc
        cases hx : (x :: xs).getLast? with
        | none => simp at hx
        | some v =>
          rw [hx] at hc
          have hvc : v = c := by simpa using hc
          subst hvc
          exact hw2 v (by rw [hp]; exact hx)
  unfold parseLine
  rw [hstrip]
  rw [show storeLine pr = pr.1 ++ '|' :: '|' :: pr.2 from rfl]
  rw [splitBars_append pr.1 pr.2 hd1 hl1, splitBars_no_dd pr.2 hd2]

theorem dictMem_false_get_none (m : List (Str × Str)) (k : Str)
    (h : dictMem m k = false) : dictGet m k = none := by
  unfold dictMem at h
  cases hg : dictGet m k
  · rfl
  · rw [hg] at h; cases h

theorem loadLines_parsed (m : List (Str × Str))
    (h : ∀ pr ∈ m, parseLine (storeLine pr) = Except.ok pr) :
    ∀ acc, loadLines (m.map storeLine) acc =
      Except.ok (m.foldl (fun a pr => dictInsert a pr.1 pr.2) acc) := by
  induction m with
  | nil => intro acc; rfl
  | cons pr rest ih =>
    intro acc
    simp only [List.map_cons, List.foldl_cons]
    unfold loadLines
    rw [h pr (List.mem_cons_self pr rest)]
    exact ih (fun q hq => h q (List.mem_cons_of_mem pr hq)) _

theorem foldl_dictInsert (m : List (Str × Str)) :
    ∀ acc, (m.map Prod.fst).Nodup → (∀ pr ∈ m, dictMem acc pr.1 = false) →
      m.foldl (fun a pr => dictInsert a pr.1 pr.2) acc = acc ++ m := by
  induction m with
  | nil => intro acc _ _; simp
  | cons pr rest ih =>
    intro acc hnd hmem
    simp only [List.foldl_cons]
    rw [dictInsert_of_not_mem acc pr.1 pr.2 (hmem pr (List.mem_cons_self pr rest))]
    have hnd' : (rest.map Prod.fst).Nodup := by
      rw [List.map_cons, List.nodup_cons] at hnd
      exact hnd.2
    have hfst : pr.1 ∉ rest.map Prod.fst := by
      rw [List.map_cons, List.nodup_cons] at hnd
      exact hnd.1
    have hmem' : ∀ q ∈ rest, dictMem (acc ++ [(pr.1, pr.2)]) q.1 = false := by
      intro q hq
      have hqp : q.1 ≠ pr.1 := by
        intro he
        exact hfst (he ▸ List.mem_map_of_mem Prod.fst hq)
      unfold dictMem
      rw [dictGet_append,
        dictMem_false_get_none acc q.1 (hmem q (List.mem_cons_of_mem pr hq))]
      simp [dictGet, Ne.symm hqp]
    rw [ih _ hnd' hmem']
    simp

/-- C10 counterexample: the one-entry mapping `[(" a", "h")]` meets the
claim's conditions (no `||` in path or digest, no newline, not both empty),
yet saving then loading yields `[("a", "h")]`: line.strip() in load_hashes
removes the path's leading space, so the roundtrip is not the identity. -/
theorem store_roundtrip_c10_cex :
    load_hashes (some (save_hashes [(" a".toList, "h".toList)])) =
        Except.ok [("a".toList, "h".toList)] ∧
      load_hashes (some (save_hashes [(" a".toList, "h".toList)])) ≠
        Except.ok [(" a".toList, "h".toList)] ∧
      hasDD " a".toList = false ∧ hasDD "h".toList = false ∧
      '\n' ∉ " a".toList ∧ '\n' ∉ "h".toList ∧
      ¬(" a".toList = [] ∧ "h".toList = []) := by decide

/-- C10 (amended): save-then-load is the identity on mappings with distinct
keys in which no path or digest contains the delimiter `||` or a newline or
carriage return, no path ends in a lone `|` (which would fuse with the
delimiter), no path starts with whitespace and no digest ends with
whitespace (which line.strip() would remove). -/
theorem store_roundtrip_c10_amended (m : List (Str × Str))
    (hnd : (m.map Prod.fst).Nodup)
    (hcond : ∀ pr ∈ m,
      hasDD pr.1 = false ∧ pr.1.getLast? ≠ some '|' ∧ hasDD pr.2 = false ∧
      '\n' ∉ pr.1 ∧ '\r' ∉ pr.1 ∧ '\n' ∉ pr.2 ∧ '\r' ∉ pr.2 ∧
      (∀ c, pr.1.head? = some c → isPyWs c = false) ∧
      (∀ c, pr.2.getLast? = some c → isPyWs c = false)) :
    load_hashes (some (save_hashes m)) = Except.ok m := by
  have hlines : pyFileLines (save_hashes m) = m.map storeLine :=
    pyFileLines_save m (fun pr hpr =>
      ⟨(hcond pr hpr).2.2.2.1, (hcond pr hpr).2.2.2.2.1,
        (hcond pr hpr).2.2.2.2.2.1, (hcond pr hpr).2.2.2.2.2.2.1⟩)
  have hparse : ∀ pr ∈ m, parseLine (storeLine pr) = Except.ok pr := fun pr hpr =>
    parse_storeLine pr (hcond pr hpr).1 (hcond pr hpr).2.1 (hcond pr hpr).2.2.1
      (hcond pr hpr).2.2.2.2.2.2.2.1 (hcond pr hpr).2.2.2.2.2.2.2.2
  show loadLines (pyFileLines (save_hashes m)) [] = Except.ok m
  rw [hlines, loadLines_parsed m hparse []]
  rw [foldl_dictInsert m [] hnd (fun pr _ => rfl)]
  rfl

theorem store_roundtrip_c10_witness :
    load_hashes (some (save_hashes [("a".toList, "d1".toList),
        ("b/c".toList, "d2".toList)])) =
      Except.ok [("a".toList, "d1".toList), ("b/c".toList, "d2".toList)] :=
  store_roundtrip_c10_amended [("a".toList, "d1".toList), ("b/c".toList, "d2".toList)]
    (by decide) (by decide)
